import Mathlib

/-!
Verification of `format_events.py`: a shallow embedding of the Event Hub
streaming-ingestion session (`read_from_eventhub` together with its
`on_event_batch` / `on_error` callbacks and its timeout arithmetic), of the
JSON file helpers `load_events` / `save_events`, and of the resource-id
formatter `short_resource`, with theorems about the drain-tracking state
machine, the error-handling paths and the file round trip.
-/

namespace FormatEvents

/-- JSON values as produced by Python's `json.loads`.  Numbers are collapsed
to `Int`: no property below depends on numeric precision. -/
inductive Json where
  | null : Json
  | bool : Bool → Json
  | num : Int → Json
  | str : String → Json
  | arr : List Json → Json
  | obj : List (String × Json) → Json

/-- Python exceptions that the ingestion code can raise without catching
them (`json.JSONDecodeError` is the only exception it catches). -/
inductive PyError where
  | attributeError : PyError
  | typeError : PyError
deriving DecidableEq

/-- Python `data.get(key, default)`: the attribute lookup of `.get` succeeds
only on a dict (`Json.obj`); on any other value — in particular on a bare
list — it raises `AttributeError` before the default is ever used. -/
def pyDictGet (data : Json) (key : String) (dflt : Json) : Except PyError Json :=
  match data with
  | Json.obj fields => Except.ok ((fields.lookup key).getD dflt)
  | _ => Except.error PyError.attributeError

/-- Python iteration and `len` over a JSON value, as `list.extend(records)`
and `len(records)` use them: arrays yield their elements, strings their
characters, dicts their keys; `null`, booleans and numbers are not iterable
and raise `TypeError`. -/
def pyElems (x : Json) : Except PyError (List Json) :=
  match x with
  | Json.arr xs => Except.ok xs
  | Json.str s => Except.ok (s.data.map fun c => Json.str (String.singleton c))
  | Json.obj fields => Except.ok (fields.map fun kv => Json.str kv.1)
  | _ => Except.error PyError.typeError

/-- The mutable state shared by the `read_from_eventhub` callbacks: the
`idle_partitions` set, the settable-once `done` event, the `all_records`
accumulation buffer, the `events_received` progress counter, and the
partition ids named by the `[warn]` lines printed to stderr. -/
structure SessionState where
  idle_partitions : Finset String
  done : Bool
  all_records : List Json
  events_received : Nat
  warnings : List String

/-- State before any callback has run: empty idle set, unsettled signal,
empty buffer. -/
def initState : SessionState :=
  { idle_partitions := ∅, done := false, all_records := [],
    events_received := 0, warnings := [] }

/-- `idle_partitions.add(pid)` followed by
`if len(idle_partitions) >= len(partition_ids): done.set()` — the idle
marking shared by the empty-batch branch of `on_event_batch` and by
`on_error` (`threading.Event.set` on an already-set event is a no-op, so
`done` only ever goes from `false` to `true`). -/
def markIdle (partition_ids : List String) (pid : String) (st : SessionState) :
    SessionState :=
  let idle := insert pid st.idle_partitions
  { st with
      idle_partitions := idle,
      done := st.done || decide (partition_ids.length ≤ idle.card) }

/-- One iteration of the `for event in events` loop of `on_event_batch`.
An event is modelled by the outcome of `json.loads` on its body: `none` when
decoding raises `json.JSONDecodeError` (caught: one `[warn]` line naming the
partition, nothing else changes), `some data` when it yields `data`.  A
parsed body reaches `data.get("records", [])` — `AttributeError` on
non-dicts, uncaught — and then `all_records.extend(records)` /
`events_received += len(records)` — `TypeError` on non-iterable `records`,
uncaught. -/
def ingestEvent (pid : String) (st : SessionState) (ev : Option Json) :
    SessionState × Option PyError :=
  match ev with
  | none => ({ st with warnings := st.warnings ++ [pid] }, none)
  | some data =>
    match pyDictGet data "records" (Json.arr []) with
    | Except.error e => (st, some e)
    | Except.ok records =>
      match pyElems records with
      | Except.error e => (st, some e)
      | Except.ok recs =>
        ({ st with
            all_records := st.all_records ++ recs,
            events_received := st.events_received + recs.length }, none)

/-- The `for event in events` loop: an uncaught exception stops the loop and
propagates out of the callback, keeping the mutations made so far. -/
def ingestEvents (pid : String) :
    SessionState → List (Option Json) → SessionState × Option PyError
  | st, [] => (st, none)
  | st, ev :: rest =>
    match ingestEvent pid st ev with
    | (st1, none) => ingestEvents pid st1 rest
    | (st1, some e) => (st1, some e)

/-- `on_event_batch(partition_context, events)`: an empty batch marks the
partition idle (possibly settling `done`) and returns; a non-empty batch is
ingested event by event. -/
def on_event_batch (partition_ids : List String) (pid : String)
    (events : List (Option Json)) (st : SessionState) :
    SessionState × Option PyError :=
  if events.isEmpty then (markIdle partition_ids pid st, none)
  else ingestEvents pid st events

/-- `on_error(partition_context, error)`: a missing partition context falls
back to the placeholder `"?"`; the resulting id is then marked idle exactly
as an empty batch would be. -/
def on_error (partition_ids : List String) (pctx : Option String)
    (st : SessionState) : SessionState :=
  markIdle partition_ids (pctx.getD "?") st

/-- One invocation of a receive-loop callback as delivered by the transport:
a batch for a partition, or an error report whose partition context may be
absent. -/
inductive CallbackEvent where
  | batch : String → List (Option Json) → CallbackEvent
  | error : Option String → CallbackEvent

/-- The partition id an invocation inserts into the idle set, if any: an
empty batch inserts its partition, an error report inserts its context's id
(or `"?"`), a non-empty batch inserts nothing. -/
def CallbackEvent.idlePid : CallbackEvent → Option String
  | CallbackEvent.batch pid events => if events.isEmpty then some pid else none
  | CallbackEvent.error pctx => some (pctx.getD "?")

/-- Whether an invocation names a discovered partition; an error report must
carry a partition context for this to hold. -/
def CallbackEvent.wellAddressed (partition_ids : List String) :
    CallbackEvent → Bool
  | CallbackEvent.batch pid _ => decide (pid ∈ partition_ids)
  | CallbackEvent.error (some p) => decide (p ∈ partition_ids)
  | CallbackEvent.error none => false

/-- Dispatch of one callback invocation on the shared state. -/
def stepCallback (partition_ids : List String) (st : SessionState)
    (e : CallbackEvent) : SessionState :=
  match e with
  | CallbackEvent.batch pid events => (on_event_batch partition_ids pid events st).1
  | CallbackEvent.error pctx => on_error partition_ids pctx st

/-- The sequence of callback invocations the background receive loop performs
during a session. -/
def runTrace (partition_ids : List String) (st : SessionState)
    (tr : List CallbackEvent) : SessionState :=
  tr.foldl (stepCallback partition_ids) st

/-- Every invocation in the trace names a discovered partition (in
particular, every error report carries a partition context). -/
def TraceWellFormed (partition_ids : List String) (tr : List CallbackEvent) :
    Prop :=
  ∀ e ∈ tr, CallbackEvent.wellAddressed partition_ids e = true

instance (partition_ids : List String) (tr : List CallbackEvent) :
    Decidable (TraceWellFormed partition_ids tr) :=
  List.decidableBAll _ tr

/-- The external transport as `read_from_eventhub` sees it: the outcome of
`client.get_partition_ids()` and, on success, the callback invocations its
receive loop performs. -/
structure Transport where
  partition_probe : Except String (List String)
  trace : List CallbackEvent

/-- Observable outcome of one `read_from_eventhub` session. -/
structure SessionResult where
  exit_code : Option Nat
  closed : Bool
  receive_thread_started : Bool
  records : List Json
  stderr_output : List String

/-- Control flow of `read_from_eventhub` around the connectivity probe: if
`client.get_partition_ids()` raises, the code runs `client.close()`, prints
an ERROR line to stderr and calls `sys.exit(1)` — all before the receive
thread is created.  On success the receive thread runs the transport's
callback trace, the client is closed, and the accumulated records are
returned. -/
def read_from_eventhub (tp : Transport) : SessionResult :=
  match tp.partition_probe with
  | Except.error msg =>
    { exit_code := some 1,
      closed := true,
      receive_thread_started := false,
      records := [],
      stderr_output := ["  ERROR: Could not connect to Event Hub.\n  " ++ msg] }
  | Except.ok partition_ids =>
    let final := runTrace partition_ids initState tp.trace
    { exit_code := none,
      closed := true,
      receive_thread_started := true,
      records := final.all_records,
      stderr_output := final.warnings.map
        (fun pid => "  [warn] Skipped non-JSON event on partition " ++ pid) }

/-- `overall_timeout = max_wait_time * len(partition_ids) + 30`. -/
def overall_timeout (max_wait_time : Nat) (partition_count : Nat) : Nat :=
  max_wait_time * partition_count + 30

/-- Blocking time of `done.wait(timeout=overall_timeout)`: the wait ends when
the completion signal settles (at `settle_time`) or when the timeout
elapses, whichever is first; `none` models a transport that never settles
the signal. -/
def completionWait (settle_time : Option Nat) (timeout : Nat) : Nat :=
  match settle_time with
  | some t => min t timeout
  | none => timeout

/-- Blocking time of `receive_thread.flatten(timeout=5)`: the join returns when
the receive loop unwinds (at `unwind_time`) or after 5 seconds, whichever is
first; `none` models a loop that never unwinds. -/
def joinWait (unwind_time : Option Nat) : Nat :=
  match unwind_time with
  | some t => min t 5
  | none => 5

/-- Total foreground blocking after a successful probe: `done.wait(...)`
followed by the bounded `receive_thread.flatten(...)`. -/
def sessionWait (settle_time unwind_time : Option Nat)
    (max_wait_time partition_count : Nat) : Nat :=
  completionWait settle_time (overall_timeout max_wait_time partition_count) +
    joinWait unwind_time

/-- `load_events`, applied to the parsed top-level JSON value of the file:
`data.get("records", data if isinstance(data, list) else [])`.  The
attribute lookup `data.get` succeeds only on a dict, so on a bare top-level
array (or any other non-dict) it raises `AttributeError` and the
`isinstance(data, list)` fallback in the default argument is unreachable;
a dict without a `"records"` key yields `[]`. -/
def load_events (data : Json) : Except PyError Json :=
  pyDictGet data "records" (Json.arr [])

/-- `save_events`: the JSON document `{"records": records}` written by
`json.dump`.  Serialization to the file and re-parsing (the stdlib `json`
module, external to this repository) is modelled as the identity on JSON
values; the repository's contribution is the wrapping modelled here. -/
def save_events (records : List Json) : Json :=
  Json.obj [("records", Json.arr records)]

/-- Python `list.index(a)`: index of the first occurrence; `none` models the
`ValueError` raised when the element is absent. -/
def pyIndex (a : String) : List String → Option Nat
  | [] => none
  | x :: xs => if x == a then some 0 else (pyIndex a xs).map (· + 1)

/-- Python `str.upper()` restricted to the ASCII range of ARM resource ids. -/
def pyUpper (s : String) : String :=
  String.mk (s.data.map Char.toUpper)

/-- Python `str.split("/")`, character by character: splitting at every
occurrence of the separator, keeping empty segments, one extra segment per
separator. -/
def splitSlashChars : List Char → List (List Char)
  | [] => [[]]
  | c :: cs =>
    match splitSlashChars cs with
    | seg :: segs =>
      if c = '/' then [] :: seg :: segs else (c :: seg) :: segs
    | [] => []

/-- `resource_id.upper().split("/")`. -/
def resourceParts (resource_id : String) : List String :=
  (splitSlashChars (pyUpper resource_id).data).map String.mk

/-- `short_resource`: uppercase, split on `"/"`, locate the segments after
the first `"SERVERS"` and the first `"DATABASES"`; any `ValueError` or
`IndexError` on the way is caught and the original id returned, so the
function always returns normally. -/
def short_resource (resource_id : String) : String :=
  match pyIndex "SERVERS" (resourceParts resource_id),
      pyIndex "DATABASES" (resourceParts resource_id) with
  | some si, some di =>
    match (resourceParts resource_id)[si + 1]?,
        (resourceParts resource_id)[di + 1]? with
    | some a, some b => a ++ "/" ++ b
    | _, _ => resource_id
  | _, _ => resource_id

/-- Spec-side description of one batch event for the malformed-event claims:
either its body fails JSON decoding, or it decodes to an object whose
`"records"` entry, when present, is an array. -/
def cleanEvent : Option Json → Bool
  | none => true
  | some (Json.obj fields) =>
    match fields.lookup "records" with
    | some (Json.arr _) => true
    | some _ => false
    | none => true
  | some _ => false

/-- Spec-side description: the records one event contributes to the buffer. -/
def recordsOf : Option Json → List Json
  | some (Json.obj fields) =>
    match fields.lookup "records" with
    | some (Json.arr rs) => rs
    | _ => []
  | _ => []

/-- Spec-side description: an event whose body fails JSON decoding. -/
def isMalformed : Option Json → Bool
  | none => true
  | some _ => false

/-- Sample metric record used by concrete witnesses. -/
def recOne : Json :=
  Json.obj [("metricName", Json.str "cpu_percent"), ("average", Json.num 42)]

/-- Second sample metric record used by concrete witnesses. -/
def recTwo : Json :=
  Json.obj [("metricName", Json.str "dtu_used"), ("average", Json.num 7)]

/-- Sample well-formed event carrying `recOne`. -/
def wfOne : Json := Json.obj [("records", Json.arr [recOne])]

/-- Sample well-formed event carrying `recTwo`. -/
def wfTwo : Json := Json.obj [("records", Json.arr [recTwo])]

/-- Claim C4 (code bug): loading a persisted file whose top-level JSON value
is a bare array does not return the array — `data.get` on a Python list
raises `AttributeError`, so the advertised list fallback is unreachable. -/
theorem load_bare_array_attribute_error :
    load_events (Json.arr [recOne]) = Except.error PyError.attributeError :=
  rfl

/-- Claim C5: saving any list of records with `save_events` and reloading
the resulting document with `load_events` yields exactly the same records,
including the empty list. -/
theorem save_load_round_trip (records : List Json) :
    load_events (save_events records) = Except.ok (Json.arr records) :=
  rfl

/-- Claim C6: when the connectivity probe raises, the session closes the
connection and exits with status 1 before any receive thread is started,
with zero records collected and a human-readable error on stderr. -/
theorem probe_failure_fast_fail (msg : String) (tr : List CallbackEvent) :
    read_from_eventhub { partition_probe := Except.error msg, trace := tr } =
      { exit_code := some 1,
        closed := true,
        receive_thread_started := false,
        records := [],
        stderr_output :=
          ["  ERROR: Could not connect to Event Hub.\n  " ++ msg] } :=
  rfl

/-- Claim C2, counterexample: with `max_wait_time = 10` and 2 partitions the
deadline is 50, but a transport that never settles the signal and never
unwinds makes the foreground block for the full `done.wait` timeout plus the
full 5-second join — 55 seconds, exceeding the claimed bound. -/
theorem session_wait_exceeds_deadline_counterexample :
    overall_timeout 10 2 < sessionWait none none 10 2 := by decide

/-- Claim C2, amended: the deadline equals
`max_wait_per_partition * partition_count + 30`, the wait on the completion
signal never exceeds it (even for a transport that never settles it, where it
is hit exactly), and the total foreground wait is bounded by the deadline
plus the 5-second join grace. -/
theorem session_wait_bounded (mw n : Nat) (settle unwind : Option Nat) :
    overall_timeout mw n = mw * n + 30 ∧
    completionWait settle (overall_timeout mw n) ≤ mw * n + 30 ∧
    completionWait none (overall_timeout mw n) = mw * n + 30 ∧
    sessionWait settle unwind mw n ≤ mw * n + 30 + 5 := by
  refine ⟨rfl, ?_, rfl, ?_⟩
  · cases settle with
    | none => exact Nat.le_refl _
    | some t => exact Nat.min_le_right _ _
  · have h1 : completionWait settle (overall_timeout mw n) ≤ mw * n + 30 := by
      cases settle with
      | none => exact Nat.le_refl _
      | some t => exact Nat.min_le_right _ _
    have h2 : joinWait unwind ≤ 5 := by
      cases unwind with
      | none => exact Nat.le_refl _
      | some t => exact Nat.min_le_right _ _
    exact Nat.add_le_add h1 h2

theorem markIdle_idle (pids : List String) (pid : String) (st : SessionState) :
    (markIdle pids pid st).idle_partitions = insert pid st.idle_partitions :=
  rfl

theorem markIdle_done (pids : List String) (pid : String) (st : SessionState) :
    (markIdle pids pid st).done =
      (st.done ||
        decide (pids.length ≤ (insert pid st.idle_partitions).card)) :=
  rfl

theorem ingestEvent_shape (pid : String) (st : SessionState) (ev : Option Json) :
    ∃ added warned,
      (ingestEvent pid st ev).1 =
        { st with
            all_records := st.all_records ++ added,
            events_received := st.events_received + added.length,
            warnings := st.warnings ++ warned } := by
  cases ev with
  | none => exact ⟨[], [pid], by simp [ingestEvent]⟩
  | some data =>
    cases hg : pyDictGet data "records" (Json.arr []) with
    | error e => exact ⟨[], [], by simp [ingestEvent, hg]⟩
    | ok records =>
      cases he : pyElems records with
      | error e => exact ⟨[], [], by simp [ingestEvent, hg, he]⟩
      | ok recs => exact ⟨recs, [], by simp [ingestEvent, hg, he]⟩

theorem ingestEvents_shape (pid : String) (events : List (Option Json))
    (st : SessionState) :
    ∃ added warned,
      (ingestEvents pid st events).1 =
        { st with
            all_records := st.all_records ++ added,
            events_received := st.events_received + added.length,
            warnings := st.warnings ++ warned } := by
  induction events generalizing st with
  | nil => exact ⟨[], [], by simp [ingestEvents]⟩
  | cons ev rest ih =>
    obtain ⟨a1, w1, h1⟩ := ingestEvent_shape pid st ev
    cases hstep : ingestEvent pid st ev with
    | mk st1 oe =>
      rw [hstep] at h1
      cases oe with
      | none =>
        have h1' : st1 =
            { st with
                all_records := st.all_records ++ a1,
                events_received := st.events_received + a1.length,
                warnings := st.warnings ++ w1 } := h1
        obtain ⟨a2, w2, h2⟩ := ih st1
        refine ⟨a1 ++ a2, w1 ++ w2, ?_⟩
        rw [show ingestEvents pid st (ev :: rest) = ingestEvents pid st1 rest by
          simp [ingestEvents, hstep]]
        rw [h2, h1']
        simp [List.append_assoc, Nat.add_assoc]
      | some e =>
        refine ⟨a1, w1, ?_⟩
        rw [show ingestEvents pid st (ev :: rest) = (st1, some e) by
          simp [ingestEvents, hstep]]
        exact h1

theorem ingestEvents_idle (pid : String) (events : List (Option Json))
    (st : SessionState) :
    (ingestEvents pid st events).1.idle_partitions = st.idle_partitions := by
  obtain ⟨a, w, h⟩ := ingestEvents_shape pid events st
  rw [h]

theorem ingestEvents_done (pid : String) (events : List (Option Json))
    (st : SessionState) :
    (ingestEvents pid st events).1.done = st.done := by
  obtain ⟨a, w, h⟩ := ingestEvents_shape pid events st
  rw [h]

theorem on_event_batch_nonempty (pids : List String) (pid : String)
    (events : List (Option Json)) (st : SessionState) (h : events ≠ []) :
    on_event_batch pids pid events st = ingestEvents pid st events := by
  have hf : events.isEmpty = false := by
    cases events with
    | nil => exact absurd rfl h
    | cons a l => rfl
  simp [on_event_batch, hf]

theorem runTrace_nil (pids : List String) (st : SessionState) :
    runTrace pids st [] = st :=
  rfl

theorem runTrace_cons (pids : List String) (st : SessionState)
    (e : CallbackEvent) (tr : List CallbackEvent) :
    runTrace pids st (e :: tr) = runTrace pids (stepCallback pids st e) tr :=
  rfl

theorem runTrace_append (pids : List String) (st : SessionState)
    (tr tr' : List CallbackEvent) :
    runTrace pids st (tr ++ tr') = runTrace pids (runTrace pids st tr) tr' :=
  List.foldl_append _ _ _ _

theorem stepCallback_idle_mem (pids : List String) (st : SessionState)
    (e : CallbackEvent) (p : String) :
    p ∈ (stepCallback pids st e).idle_partitions ↔
      p ∈ st.idle_partitions ∨ CallbackEvent.idlePid e = some p := by
  cases e with
  | batch pid events =>
    cases events with
    | nil =>
      show p ∈ (markIdle pids pid st).idle_partitions ↔ _
      rw [markIdle_idle, Finset.mem_insert]
      simp [CallbackEvent.idlePid, eq_comm, or_comm]
    | cons ev rest =>
      show p ∈ (ingestEvents pid st (ev :: rest)).1.idle_partitions ↔ _
      rw [ingestEvents_idle]
      simp [CallbackEvent.idlePid]
  | error pctx =>
    show p ∈ (markIdle pids (pctx.getD "?") st).idle_partitions ↔ _
    rw [markIdle_idle, Finset.mem_insert]
    simp [CallbackEvent.idlePid, eq_comm, or_comm]

theorem runTrace_idle_mem (pids : List String) (tr : List CallbackEvent)
    (st : SessionState) (p : String) :
    p ∈ (runTrace pids st tr).idle_partitions ↔
      p ∈ st.idle_partitions ∨ ∃ e ∈ tr, CallbackEvent.idlePid e = some p := by
  induction tr generalizing st with
  | nil => simp [runTrace]
  | cons e tr ih =>
    rw [runTrace_cons, ih, stepCallback_idle_mem]
    simp [or_assoc]

theorem stepCallback_done_mono (pids : List String) (st : SessionState)
    (e : CallbackEvent) (h : st.done = true) :
    (stepCallback pids st e).done = true := by
  cases e with
  | batch pid events =>
    cases events with
    | nil =>
      show (markIdle pids pid st).done = true
      rw [markIdle_done, h, Bool.true_or]
    | cons ev rest =>
      show (ingestEvents pid st (ev :: rest)).1.done = true
      rw [ingestEvents_done]
      exact h
  | error pctx =>
    show (markIdle pids (pctx.getD "?") st).done = true
    rw [markIdle_done, h, Bool.true_or]

theorem runTrace_done_of_done (pids : List String) (tr : List CallbackEvent)
    (st : SessionState) (h : st.done = true) :
    (runTrace pids st tr).done = true := by
  induction tr generalizing st with
  | nil => exact h
  | cons e tr ih => exact ih _ (stepCallback_done_mono pids st e h)

theorem markIdle_done_eq (pids : List String) (pid : String) (st : SessionState)
    (h : st.done = decide (pids.length ≤ st.idle_partitions.card)) :
    (markIdle pids pid st).done =
      decide (pids.length ≤ (markIdle pids pid st).idle_partitions.card) := by
  have hsub : st.idle_partitions.card ≤ (insert pid st.idle_partitions).card :=
    Finset.card_le_card (Finset.subset_insert pid st.idle_partitions)
  rw [markIdle_done, markIdle_idle, h]
  by_cases hc : pids.length ≤ st.idle_partitions.card
  · have hc2 : pids.length ≤ (insert pid st.idle_partitions).card :=
      le_trans hc hsub
    simp [hc, hc2]
  · simp [hc]

theorem stepCallback_done_eq (pids : List String) (st : SessionState)
    (e : CallbackEvent)
    (h : st.done = decide (pids.length ≤ st.idle_partitions.card)) :
    (stepCallback pids st e).done =
      decide (pids.length ≤ (stepCallback pids st e).idle_partitions.card) := by
  cases e with
  | batch pid events =>
    cases events with
    | nil => exact markIdle_done_eq pids pid st h
    | cons ev rest =>
      have hs : stepCallback pids st (CallbackEvent.batch pid (ev :: rest)) =
          (ingestEvents pid st (ev :: rest)).1 := rfl
      rw [hs, ingestEvents_done, ingestEvents_idle]
      exact h
  | error pctx => exact markIdle_done_eq pids (pctx.getD "?") st h

theorem runTrace_done_eq (pids : List String) (tr : List CallbackEvent)
    (st : SessionState)
    (h : st.done = decide (pids.length ≤ st.idle_partitions.card)) :
    (runTrace pids st tr).done =
      decide (pids.length ≤ (runTrace pids st tr).idle_partitions.card) := by
  induction tr generalizing st with
  | nil => exact h
  | cons e tr ih => exact ih _ (stepCallback_done_eq pids st e h)

theorem runTrace_idle_subset_toFinset (pids : List String)
    (tr : List CallbackEvent) (hwf : TraceWellFormed pids tr) :
    (runTrace pids initState tr).idle_partitions ⊆ pids.toFinset := by
  intro p hp
  rw [runTrace_idle_mem] at hp
  rcases hp with hp | ⟨e, he, hpe⟩
  · simp [initState] at hp
  · have hw := hwf e he
    cases e with
    | batch pid events =>
      cases events with
      | nil =>
        have : pid = p := by
          simpa [CallbackEvent.idlePid] using hpe
        subst this
        exact List.mem_toFinset.mpr (of_decide_eq_true hw)
      | cons ev rest => simp [CallbackEvent.idlePid] at hpe
    | error pctx =>
      cases pctx with
      | none => simp [CallbackEvent.wellAddressed] at hw
      | some q =>
        have : q = p := by
          simpa [CallbackEvent.idlePid] using hpe
        subst this
        exact List.mem_toFinset.mpr (of_decide_eq_true hw)

/-- Claim C1, counterexample: over the two discovered partitions `"0"` and
`"1"`, an error report with no partition context inserts the placeholder
`"?"`, after which a single empty batch from `"0"` settles the completion
signal — although partition `"1"` has reported neither an empty batch nor an
error, refuting the "only if" direction of the claim. -/
theorem completion_signal_counterexample :
    (runTrace ["0", "1"] initState
        [CallbackEvent.error none, CallbackEvent.batch "0" []]).done = true ∧
    CallbackEvent.idlePid (CallbackEvent.error none) ≠ some "1" ∧
    CallbackEvent.idlePid (CallbackEvent.batch "0" []) ≠ some "1" := by
  decide

/-- Claim C1, amended: provided at least one partition was discovered and
every report names a discovered partition (in particular every `on_error`
invocation carries a partition context), the completion signal settles if
and only if every discovered partition has reported at least one empty batch
or an error; once settled it never un-settles, and an idle report for a
partition already in the idle set changes neither the set size nor the
signal. -/
theorem completion_signal_settles_iff_all_reported (pids : List String)
    (tr : List CallbackEvent) (hne : pids ≠ []) (hnd : pids.Nodup)
    (hwf : TraceWellFormed pids tr) :
    ((runTrace pids initState tr).done = true ↔
      ∀ p ∈ pids, ∃ e ∈ tr, CallbackEvent.idlePid e = some p) ∧
    (∀ tr', (runTrace pids initState tr).done = true →
      (runTrace pids initState (tr ++ tr')).done = true) ∧
    (∀ pid ∈ (runTrace pids initState tr).idle_partitions,
      (stepCallback pids (runTrace pids initState tr)
          (CallbackEvent.batch pid [])).idle_partitions.card =
        (runTrace pids initState tr).idle_partitions.card ∧
      (stepCallback pids (runTrace pids initState tr)
          (CallbackEvent.batch pid [])).done =
        (runTrace pids initState tr).done) := by
  have hN : 0 < pids.length := List.length_pos.mpr hne
  have hinit : initState.done =
      decide (pids.length ≤ initState.idle_partitions.card) := by
    simp [initState]
    exact hne
  have hdone := runTrace_done_eq pids tr initState hinit
  refine ⟨⟨?_, ?_⟩, ?_, ?_⟩
  · intro hd p hp
    rw [hdone] at hd
    have hcard := of_decide_eq_true hd
    have hsubset := runTrace_idle_subset_toFinset pids tr hwf
    have hcardT : pids.toFinset.card = pids.length :=
      List.toFinset_card_of_nodup hnd
    have heq : (runTrace pids initState tr).idle_partitions = pids.toFinset :=
      Finset.eq_of_subset_of_card_le hsubset (by rw [hcardT]; exact hcard)
    have hpF : p ∈ (runTrace pids initState tr).idle_partitions := by
      rw [heq]
      exact List.mem_toFinset.mpr hp
    have hm := (runTrace_idle_mem pids tr initState p).mp hpF
    rcases hm with h0 | h
    · simp [initState] at h0
    · exact h
  · intro hall
    rw [hdone]
    apply decide_eq_true
    have hsub2 : pids.toFinset ⊆ (runTrace pids initState tr).idle_partitions := by
      intro p hp
      rw [List.mem_toFinset] at hp
      obtain ⟨e, he, hpe⟩ := hall p hp
      exact (runTrace_idle_mem pids tr initState p).mpr (Or.inr ⟨e, he, hpe⟩)
    calc pids.length = pids.toFinset.card :=
          (List.toFinset_card_of_nodup hnd).symm
      _ ≤ (runTrace pids initState tr).idle_partitions.card :=
          Finset.card_le_card hsub2
  · intro tr' hd
    rw [runTrace_append]
    exact runTrace_done_of_done pids tr' _ hd
  · intro pid hpid
    have hins : insert pid (runTrace pids initState tr).idle_partitions =
        (runTrace pids initState tr).idle_partitions :=
      Finset.insert_eq_self.mpr hpid
    have hstep_idle : (stepCallback pids (runTrace pids initState tr)
        (CallbackEvent.batch pid [])).idle_partitions =
        (runTrace pids initState tr).idle_partitions := by
      show (markIdle pids pid _).idle_partitions = _
      rw [markIdle_idle]
      exact hins
    refine ⟨by rw [hstep_idle], ?_⟩
    show (markIdle pids pid _).done = _
    rw [markIdle_done, hins, hdone]
    exact Bool.or_self _

/-- Claim C1 witness: with partitions `"0"` and `"1"` and a trace consisting
of an empty batch from `"0"` and an error report for `"1"`, the settled
signal is equivalent to every partition having reported. -/
theorem completion_signal_settles_iff_all_reported_witness :
    (runTrace ["0", "1"] initState
        [CallbackEvent.batch "0" [], CallbackEvent.error (some "1")]).done =
        true ↔
      ∀ p ∈ ["0", "1"],
        ∃ e ∈ [CallbackEvent.batch "0" [], CallbackEvent.error (some "1")],
          CallbackEvent.idlePid e = some p :=
  (completion_signal_settles_iff_all_reported ["0", "1"]
    [CallbackEvent.batch "0" [], CallbackEvent.error (some "1")]
    (by decide) (by decide) (by decide)).1

/-- Claim C7, counterexample: with a single discovered partition `"0"`, an
error report with no partition context inserts the placeholder `"?"`; after
the empty batch from `"0"` the idle set has two elements, exceeding the
total number of discovered partitions. -/
theorem idle_set_size_counterexample :
    (["0"] : List String).length <
      (runTrace ["0"] initState
        [CallbackEvent.error none, CallbackEvent.batch "0" []]).idle_partitions.card := by
  decide

/-- Claim C7, amended: throughout a session the idle-or-errored set grows
monotonically and insertion is idempotent for every callback sequence; the
bound `|idle set| ≤ partition count` holds provided every report names a
discovered partition (in particular every error report carries a partition
context). -/
theorem idle_set_monotone_idempotent_bounded (pids : List String)
    (tr : List CallbackEvent) (e : CallbackEvent) :
    ((runTrace pids initState tr).idle_partitions ⊆
      (runTrace pids initState (tr ++ [e])).idle_partitions) ∧
    (∀ pid ∈ (runTrace pids initState tr).idle_partitions,
      (stepCallback pids (runTrace pids initState tr)
          (CallbackEvent.batch pid [])).idle_partitions =
        (runTrace pids initState tr).idle_partitions) ∧
    (TraceWellFormed pids tr →
      (runTrace pids initState tr).idle_partitions.card ≤ pids.length) := by
  refine ⟨?_, ?_, ?_⟩
  · rw [runTrace_append]
    intro p hp
    exact (stepCallback_idle_mem pids _ e p).mpr (Or.inl hp)
  · intro pid hpid
    show (markIdle pids pid _).idle_partitions = _
    rw [markIdle_idle]
    exact Finset.insert_eq_self.mpr hpid
  · intro hwf
    calc (runTrace pids initState tr).idle_partitions.card
        ≤ pids.toFinset.card :=
          Finset.card_le_card (runTrace_idle_subset_toFinset pids tr hwf)
      _ ≤ pids.length := List.toFinset_card_le pids

/-- Claim C7 witness: after one empty batch from partition `"0"`, the idle
set of the single-partition session is within the partition-count bound. -/
theorem idle_set_monotone_idempotent_bounded_witness :
    (runTrace ["0"] initState
        [CallbackEvent.batch "0" []]).idle_partitions.card ≤
      (["0"] : List String).length :=
  (idle_set_monotone_idempotent_bounded ["0"] [CallbackEvent.batch "0" []]
    (CallbackEvent.batch "0" [])).2.2 (by decide)

/-- Claim C9: an empty batch from partition P moves the idle set to exactly
S ∪ {P}, while a non-empty batch from P leaves the idle set unchanged. -/
theorem empty_batch_marks_idle (pids : List String) (pid : String)
    (st : SessionState) (events : List (Option Json)) :
    (events = [] →
      (on_event_batch pids pid events st).1.idle_partitions =
        st.idle_partitions ∪ {pid}) ∧
    (events ≠ [] →
      (on_event_batch pids pid events st).1.idle_partitions =
        st.idle_partitions) := by
  constructor
  · rintro rfl
    show (markIdle pids pid st).idle_partitions = _
    rw [markIdle_idle, Finset.insert_eq, Finset.union_comm]
  · intro hne
    rw [on_event_batch_nonempty pids pid events st hne, ingestEvents_idle]

/-- Claim C9 witness: the empty batch from `"0"` advances the initially
empty idle set by exactly `{"0"}`. -/
theorem empty_batch_marks_idle_witness :
    (on_event_batch ["0"] "0" [] initState).1.idle_partitions =
      initState.idle_partitions ∪ {"0"} :=
  (empty_batch_marks_idle ["0"] "0" initState []).1 rfl

/-- Claim C8: every non-empty batch appends some list of records to the
accumulation buffer and advances the `events_received` progress counter by
exactly the number of records appended from that batch. -/
theorem batch_reports_added_count (pids : List String) (pid : String)
    (st : SessionState) (events : List (Option Json)) (hne : events ≠ []) :
    ∃ added : List Json,
      (on_event_batch pids pid events st).1.all_records =
        st.all_records ++ added ∧
      (on_event_batch pids pid events st).1.events_received =
        st.events_received + added.length := by
  rw [on_event_batch_nonempty pids pid events st hne]
  obtain ⟨added, warned, hshape⟩ := ingestEvents_shape pid events st
  exact ⟨added, by rw [hshape], by rw [hshape]⟩

theorem ingestEvents_clean (pid : String) (events : List (Option Json))
    (st : SessionState) (h : ∀ ev ∈ events, cleanEvent ev = true) :
    ingestEvents pid st events =
      ({ st with
          all_records := st.all_records ++ (events.map recordsOf).flatten,
          events_received :=
            st.events_received + ((events.map recordsOf).flatten).length,
          warnings :=
            st.warnings ++ (events.filter isMalformed).map (fun _ => pid) },
       none) := by
  induction events generalizing st with
  | nil => simp [ingestEvents]
  | cons ev rest ih =>
    have hev := h ev (List.mem_cons_self ev rest)
    have hrest : ∀ e ∈ rest, cleanEvent e = true :=
      fun e he => h e (List.mem_cons_of_mem _ he)
    cases ev with
    | none =>
      have hstep : ingestEvents pid st (none :: rest) =
          ingestEvents pid { st with warnings := st.warnings ++ [pid] } rest :=
        rfl
      rw [hstep, ih _ hrest]
      simp [recordsOf, isMalformed, List.filter_cons, List.append_assoc]
    | some data =>
      have hshape : ∃ rs, pyDictGet data "records" (Json.arr []) =
          Except.ok (Json.arr rs) ∧ recordsOf (some data) = rs := by
        cases data with
        | obj fields =>
          cases hlk : fields.lookup "records" with
          | none =>
            exact ⟨[], by simp [pyDictGet, hlk], by simp [recordsOf, hlk]⟩
          | some v =>
            cases v with
            | arr rs =>
              exact ⟨rs, by simp [pyDictGet, hlk], by simp [recordsOf, hlk]⟩
            | null => simp [cleanEvent, hlk] at hev
            | bool b => simp [cleanEvent, hlk] at hev
            | num q => simp [cleanEvent, hlk] at hev
            | str s => simp [cleanEvent, hlk] at hev
            | obj fs => simp [cleanEvent, hlk] at hev
        | null => simp [cleanEvent] at hev
        | bool b => simp [cleanEvent] at hev
        | num q => simp [cleanEvent] at hev
        | str s => simp [cleanEvent] at hev
        | arr xs => simp [cleanEvent] at hev
      obtain ⟨rs, hok, hrec⟩ := hshape
      have hstep : ingestEvent pid st (some data) =
          ({ st with
              all_records := st.all_records ++ rs,
              events_received := st.events_received + rs.length }, none) := by
        simp [ingestEvent, hok, pyElems]
      have hred : ingestEvents pid st (some data :: rest) =
          ingestEvents pid
            { st with
                all_records := st.all_records ++ rs,
                events_received := st.events_received + rs.length } rest := by
        simp [ingestEvents, hstep]
      rw [hred, ih _ hrest]
      simp [hrec, isMalformed, List.filter_cons, List.append_assoc,
        Nat.add_assoc]

/-- Claim C3: for every delivered non-empty batch whose events either fail
JSON decoding or decode to objects with array-valued `"records"`, each
malformed event is skipped with exactly one warning naming the offending
partition, the well-formed events contribute exactly their records, the
remaining events are all processed, and no exception escapes the callback —
neither the batch nor the session is aborted. -/
theorem malformed_events_skipped (pids : List String) (pid : String)
    (st : SessionState) (events : List (Option Json)) (hne : events ≠ [])
    (h : ∀ ev ∈ events, cleanEvent ev = true) :
    on_event_batch pids pid events st =
      ({ st with
          all_records := st.all_records ++ (events.map recordsOf).flatten,
          events_received :=
            st.events_received + ((events.map recordsOf).flatten).length,
          warnings :=
            st.warnings ++ (events.filter isMalformed).map (fun _ => pid) },
       none) := by
  rw [on_event_batch_nonempty pids pid events st hne]
  exact ingestEvents_clean pid events st h

/-- Claim C3 witness: a batch of one malformed and two well-formed events
yields exactly the two well-formed records and exactly one warning naming
the partition, with no exception. -/
theorem malformed_events_skipped_witness :
    on_event_batch ["0"] "A" [none, some wfOne, some wfTwo] initState =
      ({ idle_partitions := ∅, done := false, all_records := [recOne, recTwo],
         events_received := 2, warnings := ["A"] }, none) :=
  malformed_events_skipped ["0"] "A" initState [none, some wfOne, some wfTwo]
    (List.cons_ne_nil _ _) (by decide)

/-- Claim C8 witness: a one-event batch carrying one record advances the
counter by the size of the appended record list. -/
theorem batch_reports_added_count_witness :
    ∃ added : List Json,
      (on_event_batch ["0"] "0" [some wfOne] initState).1.all_records =
        initState.all_records ++ added ∧
      (on_event_batch ["0"] "0" [some wfOne] initState).1.events_received =
        initState.events_received + added.length :=
  batch_reports_added_count ["0"] "0" initState [some wfOne]
    (List.cons_ne_nil _ _)

theorem pyIndex_getElem (a : String) :
    ∀ (l : List String) (j : Nat), pyIndex a l = some j → l[j]? = some a := by
  intro l
  induction l with
  | nil =>
    intro j h
    simp [pyIndex] at h
  | cons x xs ih =>
    intro j h
    by_cases hxa : (x == a) = true
    · rw [pyIndex, if_pos hxa] at h
      injection h with h0
      subst h0
      rw [List.getElem?_cons_zero]
      exact congrArg some (eq_of_beq hxa)
    · rw [pyIndex, if_neg hxa] at h
      obtain ⟨j1, hj1, rfl⟩ := Option.map_eq_some'.mp h
      rw [List.getElem?_cons_succ]
      exact ih j1 hj1

theorem pyIndex_of_getElem (a : String) :
    ∀ (l : List String) (i : Nat), l[i]? = some a →
      ∃ j, pyIndex a l = some j ∧ j ≤ i := by
  intro l
  induction l with
  | nil =>
    intro i h
    simp at h
  | cons x xs ih =>
    intro i h
    by_cases hxa : (x == a) = true
    · exact ⟨0, by rw [pyIndex, if_pos hxa], Nat.zero_le i⟩
    · cases i with
      | zero =>
        rw [List.getElem?_cons_zero] at h
        injection h with h0
        exact absurd (beq_iff_eq.mpr h0) hxa
      | succ i1 =>
        rw [List.getElem?_cons_succ] at h
        obtain ⟨j1, hj1, hle⟩ := ih i1 h
        refine ⟨j1 + 1, ?_, Nat.succ_le_succ hle⟩
        rw [pyIndex, if_neg hxa, hj1, Option.map_some']

/-- Claim C10: `short_resource` always returns normally; when the
uppercased, slash-split input has a `"SERVERS"` segment and a `"DATABASES"`
segment each followed by at least one more segment, it returns the segment
after the first `"SERVERS"` occurrence joined by `"/"` to the segment after
the first `"DATABASES"` occurrence; on every other input it returns the
original string unchanged. -/
theorem short_resource_total (s : String) :
    ((∃ i, i + 1 < (resourceParts s).length ∧
        (resourceParts s)[i]? = some "SERVERS") →
      (∃ j, j + 1 < (resourceParts s).length ∧
        (resourceParts s)[j]? = some "DATABASES") →
      ∃ a b,
        (∃ si, pyIndex "SERVERS" (resourceParts s) = some si ∧
          (resourceParts s)[si + 1]? = some a) ∧
        (∃ di, pyIndex "DATABASES" (resourceParts s) = some di ∧
          (resourceParts s)[di + 1]? = some b) ∧
        short_resource s = a ++ "/" ++ b) ∧
    (¬ ((∃ i, i + 1 < (resourceParts s).length ∧
          (resourceParts s)[i]? = some "SERVERS") ∧
        (∃ j, j + 1 < (resourceParts s).length ∧
          (resourceParts s)[j]? = some "DATABASES")) →
      short_resource s = s) := by
  constructor
  · rintro ⟨i, hi, hiS⟩ ⟨j, hj, hjD⟩
    obtain ⟨si, hsi, hsile⟩ := pyIndex_of_getElem "SERVERS" (resourceParts s) i hiS
    obtain ⟨di, hdi, hdile⟩ :=
      pyIndex_of_getElem "DATABASES" (resourceParts s) j hjD
    have hsilt : si + 1 < (resourceParts s).length :=
      lt_of_le_of_lt (Nat.succ_le_succ hsile) hi
    have hdilt : di + 1 < (resourceParts s).length :=
      lt_of_le_of_lt (Nat.succ_le_succ hdile) hj
    have ha : (resourceParts s)[si + 1]? = some ((resourceParts s)[si + 1]) :=
      List.getElem?_eq_getElem hsilt
    have hb : (resourceParts s)[di + 1]? = some ((resourceParts s)[di + 1]) :=
      List.getElem?_eq_getElem hdilt
    refine ⟨(resourceParts s)[si + 1], (resourceParts s)[di + 1],
      ⟨si, hsi, ha⟩, ⟨di, hdi, hb⟩, ?_⟩
    simp only [short_resource, hsi, hdi, ha, hb]
  · intro hnot
    rcases hS : pyIndex "SERVERS" (resourceParts s) with _ | si
    · simp [short_resource, hS]
    · rcases hD : pyIndex "DATABASES" (resourceParts s) with _ | di
      · simp [short_resource, hS, hD]
      · rcases hA : (resourceParts s)[si + 1]? with _ | a
        · simp [short_resource, hS, hD, hA]
        · rcases hB : (resourceParts s)[di + 1]? with _ | b
          · simp [short_resource, hS, hD, hA, hB]
          · exfalso
            apply hnot
            constructor
            · have h1 : si + 1 < (resourceParts s).length :=
                (List.getElem?_eq_some.mp hA).1
              exact ⟨si, h1, pyIndex_getElem "SERVERS" _ si hS⟩
            · have h2 : di + 1 < (resourceParts s).length :=
                (List.getElem?_eq_some.mp hB).1
              exact ⟨di, h2, pyIndex_getElem "DATABASES" _ di hD⟩

/-- Claim C10 witness: on `"servers/x/databases/y"` the segments after the
first `"SERVERS"` and `"DATABASES"` occurrences are joined by `"/"`. -/
theorem short_resource_total_witness :
    ∃ a b,
      (∃ si, pyIndex "SERVERS" (resourceParts "servers/x/databases/y") =
          some si ∧
        (resourceParts "servers/x/databases/y")[si + 1]? = some a) ∧
      (∃ di, pyIndex "DATABASES" (resourceParts "servers/x/databases/y") =
          some di ∧
        (resourceParts "servers/x/databases/y")[di + 1]? = some b) ∧
      short_resource "servers/x/databases/y" = a ++ "/" ++ b :=
  (short_resource_total "servers/x/databases/y").1
    ⟨0, by decide, by decide⟩ ⟨2, by decide, by decide⟩

end FormatEvents
